import Mathlib

/-!
Verification development for the object-persistence layer of the gnucash
engine: the KVP frame/value store (`src/libqof/qof/kvp_frame.hpp`), the
backend session contract and provider registry
(`lib/libqof/qof/qofbackend-p.h`), and the budget consumer
(`src/engine/gnc-budget.c`).

The repository ships only the headers for the KVP store and the backend
contract; the corresponding implementation files (`kvp-frame.cpp`,
`kvp-value.hpp`, `qofbackend.c`, `qofsession.c`) are absent.  Definitions
for those parts are therefore modelled from the specification text and the
header documentation, as flagged in each doc comment.  `gnc-budget.c` is
present and its functions are embedded from the source.
-/

/-! ## Ordering helpers

`cstring_comparer` (kvp_frame.hpp lines 53-62) orders keys by `strcmp`;
we model three-way comparison over any linear order with `cmpOf`. -/

/-- Three-way comparison derived from a linear order; models `strcmp`-style
comparators and the per-tag payload comparisons of `KvpValue`. -/
def cmpOf {α : Type} [LinearOrder α] (a b : α) : Ordering :=
  if a < b then .lt else if a = b then .eq else .gt

@[simp] theorem cmpOf_refl {α : Type} [LinearOrder α] (a : α) : cmpOf a a = .eq := by
  simp [cmpOf]

@[simp] theorem cmpOf_eq_iff {α : Type} [LinearOrder α] {a b : α} :
    cmpOf a b = .eq ↔ a = b := by
  unfold cmpOf
  split_ifs with h₁ h₂
  · simp [ne_of_lt h₁]
  · simp [h₂]
  · simp [h₂]

@[simp] theorem cmpOf_lt_iff {α : Type} [LinearOrder α] {a b : α} :
    cmpOf a b = .lt ↔ a < b := by
  unfold cmpOf
  split_ifs with h₁ h₂
  · simp [h₁]
  · simp [h₂]
  · simp [h₁]

@[simp] theorem cmpOf_gt_iff {α : Type} [LinearOrder α] {a b : α} :
    cmpOf a b = .gt ↔ b < a := by
  unfold cmpOf
  split_ifs with h₁ h₂
  · simp [lt_asymm h₁]
  · simp [h₂]
  · have hba : b < a := lt_of_le_of_ne (not_lt.mp h₁) (fun h => h₂ h.symm)
    simp [hba]

theorem cmpOf_swap {α : Type} [LinearOrder α] (a b : α) :
    (cmpOf a b).swap = cmpOf b a := by
  rcases lt_trichotomy a b with h | h | h
  · rw [cmpOf_lt_iff.2 h, cmpOf_gt_iff.2 h]; rfl
  · rw [cmpOf_eq_iff.2 h, cmpOf_eq_iff.2 h.symm]; rfl
  · rw [cmpOf_gt_iff.2 h, cmpOf_lt_iff.2 h]; rfl

theorem cmpOf_trans {α : Type} [LinearOrder α] {a b c : α}
    (h₁ : cmpOf a b = .lt) (h₂ : cmpOf b c = .lt) : cmpOf a c = .lt :=
  cmpOf_lt_iff.2 (lt_trans (cmpOf_lt_iff.1 h₁) (cmpOf_lt_iff.1 h₂))

/-! ## Lexicographic list comparison

Used for sorted key sequences (`std::map` iteration order under
`cstring_comparer`) and for blob payloads. -/

/-- Lexicographic three-way comparison of lists over a linear order;
a proper initial segment compares less than the longer list. -/
def listCmp {α : Type} [LinearOrder α] : List α → List α → Ordering
  | [], [] => .eq
  | [], _ :: _ => .lt
  | _ :: _, [] => .gt
  | a :: as, b :: bs => (cmpOf a b).then (listCmp as bs)

@[simp] theorem listCmp_eq_iff {α : Type} [LinearOrder α] :
    ∀ (l₁ l₂ : List α), listCmp l₁ l₂ = .eq ↔ l₁ = l₂
  | [], [] => by simp [listCmp]
  | [], _ :: _ => by simp [listCmp]
  | _ :: _, [] => by simp [listCmp]
  | a :: as, b :: bs => by
    simp [listCmp, Ordering.then_eq_eq, listCmp_eq_iff as bs]

@[simp] theorem listCmp_swap {α : Type} [LinearOrder α] :
    ∀ (l₁ l₂ : List α), (listCmp l₁ l₂).swap = listCmp l₂ l₁
  | [], [] => rfl
  | [], _ :: _ => rfl
  | _ :: _, [] => rfl
  | a :: as, b :: bs => by
    simp only [listCmp, Ordering.swap_then, cmpOf_swap, listCmp_swap as bs]

theorem listCmp_trans {α : Type} [LinearOrder α] :
    ∀ {l₁ l₂ l₃ : List α}, listCmp l₁ l₂ = .lt → listCmp l₂ l₃ = .lt →
      listCmp l₁ l₃ = .lt
  | [], _, _ :: _, _, _ => rfl
  | [], l₂, [], _, h₂ => by cases l₂ <;> simp_all [listCmp]
  | _ :: _, l₂, [], h₁, h₂ => by cases l₂ <;> simp_all [listCmp]
  | a :: as, l₂, c :: cs, h₁, h₂ => by
    cases l₂ with
    | nil => simp_all [listCmp]
    | cons b bs =>
      simp only [listCmp, Ordering.then_eq_lt, cmpOf_lt_iff, cmpOf_eq_iff] at h₁ h₂ ⊢
      rcases h₁ with h₁ | ⟨rfl, h₁⟩
      · rcases h₂ with h₂ | ⟨rfl, h₂⟩
        · exact Or.inl (lt_trans h₁ h₂)
        · exact Or.inl h₁
      · rcases h₂ with h₂ | ⟨rfl, h₂⟩
        · exact Or.inl h₂
        · exact Or.inr ⟨rfl, listCmp_trans h₁ h₂⟩

/-- Three-way string comparison by character sequence; models `strcmp` as
used by `cstring_comparer` (kvp_frame.hpp lines 53-62). -/
def strCmp (a b : String) : Ordering := listCmp a.data b.data

@[simp] theorem strCmp_eq_iff {a b : String} : strCmp a b = .eq ↔ a = b := by
  rw [strCmp, listCmp_eq_iff, ← String.ext_iff]

@[simp] theorem strCmp_swap (a b : String) : (strCmp a b).swap = strCmp b a :=
  listCmp_swap a.data b.data

theorem strCmp_trans {a b c : String} (h₁ : strCmp a b = .lt)
    (h₂ : strCmp b c = .lt) : strCmp a c = .lt :=
  listCmp_trans h₁ h₂

/-- Lexicographic comparison of two key sequences with `strCmp`; models the
"compare sorted key sequences lexicographically" step of Frame `compare`
(spec section 4.1). -/
def keyListCmp : List String → List String → Ordering
  | [], [] => .eq
  | [], _ :: _ => .lt
  | _ :: _, [] => .gt
  | a :: as, b :: bs => (strCmp a b).then (keyListCmp as bs)

@[simp] theorem keyListCmp_eq_iff :
    ∀ (l₁ l₂ : List String), keyListCmp l₁ l₂ = .eq ↔ l₁ = l₂
  | [], [] => by simp [keyListCmp]
  | [], _ :: _ => by simp [keyListCmp]
  | _ :: _, [] => by simp [keyListCmp]
  | a :: as, b :: bs => by
    simp [keyListCmp, Ordering.then_eq_eq, keyListCmp_eq_iff as bs]

@[simp] theorem keyListCmp_swap :
    ∀ (l₁ l₂ : List String), (keyListCmp l₁ l₂).swap = keyListCmp l₂ l₁
  | [], [] => rfl
  | [], _ :: _ => rfl
  | _ :: _, [] => rfl
  | a :: as, b :: bs => by
    simp only [keyListCmp, Ordering.swap_then, strCmp_swap, keyListCmp_swap as bs]

theorem keyListCmp_trans :
    ∀ {l₁ l₂ l₃ : List String}, keyListCmp l₁ l₂ = .lt → keyListCmp l₂ l₃ = .lt →
      keyListCmp l₁ l₃ = .lt
  | [], _, _ :: _, _, _ => rfl
  | [], l₂, [], _, h₂ => by cases l₂ <;> simp_all [keyListCmp]
  | _ :: _, l₂, [], h₁, h₂ => by cases l₂ <;> simp_all [keyListCmp]
  | a :: as, l₂, c :: cs, h₁, h₂ => by
    cases l₂ with
    | nil => simp_all [keyListCmp]
    | cons b bs =>
      simp only [keyListCmp, Ordering.then_eq_lt, strCmp_eq_iff] at h₁ h₂ ⊢
      rcases h₁ with h₁ | ⟨rfl, h₁⟩
      · rcases h₂ with h₂ | ⟨rfl, h₂⟩
        · exact Or.inl (strCmp_trans h₁ h₂)
        · exact Or.inl h₁
      · rcases h₂ with h₂ | ⟨rfl, h₂⟩
        · exact Or.inl h₂
        · exact Or.inr ⟨rfl, keyListCmp_trans h₁ h₂⟩

/-! ## The KVP data model

Modelled from the spec: `KvpValue` is a closed variant over
Int64, Double, Numeric (fixed-point numerator/denominator), String, Guid,
Timestamp, Blob, List of values, and nested Frame (spec section 3 and the
`KvpValue::Type` enum referenced by kvp_frame.hpp; `kvp-value.hpp` is not in
the repository excerpt).  The Double payload is represented by an integer
stand-in, since floating point is outside the embedding; only its
tag behaviour matters to the claims.  A `KvpFrameImpl` is the sequence of
(key, value) slots of the `std::map` in `strcmp` order. -/

mutual
inductive KvpValue : Type where
  | int64 (i : Int)
  | double (d : Int)
  | numeric (num den : Int)
  | string (s : String)
  | guid (g : String)
  | timespec (sec nsec : Int)
  | blob (bytes : List Nat)
  | list (l : KvpValueList)
  | frame (f : KvpFrameImpl)

inductive KvpValueList : Type where
  | nil
  | cons (hd : KvpValue) (tl : KvpValueList)

inductive KvpFrameImpl : Type where
  | nil
  | cons (key : String) (val : KvpValue) (rest : KvpFrameImpl)
end

/-- Modelled from the spec: the fixed, deterministic tag-based order used
when comparing two `KvpValue`s of different tags (spec section 3:
"comparing two Values of different tags yields a fixed, deterministic
tag-based order"). -/
def KvpValue.tagIdx : KvpValue → Nat
  | .int64 _ => 0
  | .double _ => 1
  | .numeric _ _ => 2
  | .string _ => 3
  | .guid _ => 4
  | .timespec _ _ => 5
  | .blob _ => 6
  | .list _ => 7
  | .frame _ => 8

/-- Keys of the immediate frame, in the frame's internal (sorted) order;
models `KvpFrameImpl::get_keys` (kvp_frame.hpp lines 126-131). -/
def KvpFrameImpl.keys : KvpFrameImpl → List String
  | .nil => []
  | .cons k _ rest => k :: rest.keys

/-- Values of the immediate frame, in the frame's internal order. -/
def KvpFrameImpl.vals : KvpFrameImpl → List KvpValue
  | .nil => []
  | .cons _ v rest => v :: rest.vals

mutual
/-- Modelled from the spec: the tag-aware `KvpValue` comparator
(spec section 3, "Equality/ordering: defined per-tag", and section 4.1);
`kvp-value.hpp` is not in the repository excerpt.  Different tags compare
by the fixed tag order; equal tags compare payloads per-tag. -/
def compareValue (a b : KvpValue) : Ordering :=
  (cmpOf a.tagIdx b.tagIdx).then (comparePayload a b)
termination_by (sizeOf a, 1)

/-- Modelled from the spec: per-tag payload comparison for two `KvpValue`s
of the same tag; for values of different tags the result is irrelevant
(the tag comparison decides first) and is fixed to `eq`. -/
def comparePayload : KvpValue → KvpValue → Ordering
  | .int64 i, .int64 j => cmpOf i j
  | .double x, .double y => cmpOf x y
  | .numeric n₁ d₁, .numeric n₂ d₂ => (cmpOf n₁ n₂).then (cmpOf d₁ d₂)
  | .string s, .string t => strCmp s t
  | .guid g, .guid h => strCmp g h
  | .timespec s₁ n₁, .timespec s₂ n₂ => (cmpOf s₁ s₂).then (cmpOf n₁ n₂)
  | .blob b₁, .blob b₂ => listCmp b₁ b₂
  | .list l₁, .list l₂ => compareValueList l₁ l₂
  | .frame f₁, .frame f₂ =>
      (keyListCmp f₁.keys f₂.keys).then (compareFrameValues f₁ f₂)
  | _, _ => .eq
termination_by a _ => (sizeOf a, 0)

/-- Modelled from the spec: lexicographic comparison of value lists using
the tag-aware comparator, short-circuiting on the first difference. -/
def compareValueList : KvpValueList → KvpValueList → Ordering
  | .nil, .nil => .eq
  | .nil, .cons _ _ => .lt
  | .cons _ _, .nil => .gt
  | .cons v r, .cons v' r' => (compareValue v v').then (compareValueList r r')
termination_by l _ => (sizeOf l, 1)

/-- Modelled from the spec: key-by-key comparison of the two frames'
values in the frames' internal (sorted-key) order, short-circuiting on the
first difference; used once the key sequences compare equal. -/
def compareFrameValues : KvpFrameImpl → KvpFrameImpl → Ordering
  | .nil, .nil => .eq
  | .nil, .cons _ _ _ => .lt
  | .cons _ _ _, .nil => .gt
  | .cons _ v r, .cons _ v' r' =>
      (compareValue v v').then (compareFrameValues r r')
termination_by f _ => (sizeOf f, 1)
end

/-- Modelled from the spec: `compare(a, b)` over Frames
(kvp_frame.hpp lines 159-160; spec section 4.1): compare the sorted key
sequences lexicographically; for equal key sequences compare values
key-by-key in sorted-key order with the tag-aware comparator,
short-circuiting on the first difference. -/
def compareFrame (a b : KvpFrameImpl) : Ordering :=
  (keyListCmp a.keys b.keys).then (compareFrameValues a b)

/-! ## Laws of the Frame/Value comparison -/

theorem KvpFrameImpl.keys_vals_ext :
    ∀ {f g : KvpFrameImpl}, f.keys = g.keys → f.vals = g.vals → f = g
  | .nil, .nil, _, _ => rfl
  | .nil, .cons _ _ _, hk, _ => by simp [KvpFrameImpl.keys] at hk
  | .cons _ _ _, .nil, hk, _ => by simp [KvpFrameImpl.keys] at hk
  | .cons k v r, .cons k' v' r', hk, hv => by
    simp only [KvpFrameImpl.keys, KvpFrameImpl.vals, List.cons.injEq] at hk hv
    obtain ⟨rfl, hk⟩ := hk
    obtain ⟨rfl, hv⟩ := hv
    rw [KvpFrameImpl.keys_vals_ext hk hv]

mutual
theorem compareValue_eq_iff (a b : KvpValue) : compareValue a b = .eq ↔ a = b := by
  rw [compareValue, Ordering.then_eq_eq, cmpOf_eq_iff]
  constructor
  · rintro ⟨ht, hp⟩
    exact (comparePayload_eq_iff a b ht).1 hp
  · rintro rfl
    exact ⟨rfl, (comparePayload_eq_iff a a rfl).2 rfl⟩
termination_by (sizeOf a, 2)

theorem comparePayload_eq_iff (a b : KvpValue) (ht : a.tagIdx = b.tagIdx) :
    comparePayload a b = .eq ↔ a = b := by
  cases a <;> cases b <;>
    simp_all [KvpValue.tagIdx, comparePayload, Ordering.then_eq_eq]
  · rename_i l l'
    exact compareValueList_eq_iff l l'
  · rename_i f f'
    rw [compareFrameValues_eq_iff f f']
    constructor
    · rintro ⟨hk, hv⟩
      exact KvpFrameImpl.keys_vals_ext hk hv
    · rintro rfl
      exact ⟨rfl, rfl⟩
termination_by (sizeOf a, 1)

theorem compareValueList_eq_iff :
    ∀ (l l' : KvpValueList), compareValueList l l' = .eq ↔ l = l'
  | .nil, .nil => by simp [compareValueList]
  | .nil, .cons _ _ => by simp [compareValueList]
  | .cons _ _, .nil => by simp [compareValueList]
  | .cons v r, .cons v' r' => by
    simp [compareValueList, Ordering.then_eq_eq, compareValue_eq_iff v v',
      compareValueList_eq_iff r r']
termination_by l _ => (sizeOf l, 0)

theorem compareFrameValues_eq_iff :
    ∀ (f g : KvpFrameImpl), compareFrameValues f g = .eq ↔ f.vals = g.vals
  | .nil, .nil => by simp [compareFrameValues, KvpFrameImpl.vals]
  | .nil, .cons _ _ _ => by simp [compareFrameValues, KvpFrameImpl.vals]
  | .cons _ _ _, .nil => by simp [compareFrameValues, KvpFrameImpl.vals]
  | .cons k v r, .cons k' v' r' => by
    simp [compareFrameValues, KvpFrameImpl.vals, Ordering.then_eq_eq,
      compareValue_eq_iff v v', compareFrameValues_eq_iff r r']
termination_by f _ => (sizeOf f, 0)
end

theorem compareFrame_eq_iff (f g : KvpFrameImpl) : compareFrame f g = .eq ↔ f = g := by
  rw [compareFrame, Ordering.then_eq_eq, keyListCmp_eq_iff, compareFrameValues_eq_iff]
  constructor
  · rintro ⟨hk, hv⟩
    exact KvpFrameImpl.keys_vals_ext hk hv
  · rintro rfl
    exact ⟨rfl, rfl⟩

mutual
theorem compareValue_swap (a b : KvpValue) :
    (compareValue a b).swap = compareValue b a := by
  rw [compareValue, compareValue, Ordering.swap_then, cmpOf_swap,
    comparePayload_swap a b]
termination_by (sizeOf a, 2)

theorem comparePayload_swap (a b : KvpValue) :
    (comparePayload a b).swap = comparePayload b a := by
  cases a <;> cases b <;> simp only [comparePayload] <;>
    first
      | rfl
      | rw [cmpOf_swap]
      | rw [Ordering.swap_then, cmpOf_swap, cmpOf_swap]
      | rw [strCmp_swap]
      | rw [listCmp_swap]
      | exact compareValueList_swap _ _
      | rw [Ordering.swap_then, keyListCmp_swap, compareFrameValues_swap _ _]
termination_by (sizeOf a, 1)

theorem compareValueList_swap :
    ∀ (l l' : KvpValueList), (compareValueList l l').swap = compareValueList l' l
  | .nil, .nil => by simp [compareValueList, Ordering.swap]
  | .nil, .cons _ _ => by simp [compareValueList, Ordering.swap]
  | .cons _ _, .nil => by simp [compareValueList, Ordering.swap]
  | .cons v r, .cons v' r' => by
    rw [compareValueList, compareValueList, Ordering.swap_then,
      compareValue_swap v v', compareValueList_swap r r']
termination_by l _ => (sizeOf l, 0)

theorem compareFrameValues_swap :
    ∀ (f g : KvpFrameImpl), (compareFrameValues f g).swap = compareFrameValues g f
  | .nil, .nil => by simp [compareFrameValues, Ordering.swap]
  | .nil, .cons _ _ _ => by simp [compareFrameValues, Ordering.swap]
  | .cons _ _ _, .nil => by simp [compareFrameValues, Ordering.swap]
  | .cons k v r, .cons k' v' r' => by
    rw [compareFrameValues, compareFrameValues, Ordering.swap_then,
      compareValue_swap v v', compareFrameValues_swap r r']
termination_by f _ => (sizeOf f, 0)
end

theorem compareFrame_swap (a b : KvpFrameImpl) :
    (compareFrame a b).swap = compareFrame b a := by
  rw [compareFrame, compareFrame, Ordering.swap_then, keyListCmp_swap,
    compareFrameValues_swap]

mutual
theorem compareValue_trans (a b c : KvpValue) (hab : compareValue a b = .lt)
    (hbc : compareValue b c = .lt) : compareValue a c = .lt := by
  rw [compareValue, Ordering.then_eq_lt, cmpOf_lt_iff, cmpOf_eq_iff] at hab hbc ⊢
  rcases hab with h₁ | ⟨e₁, p₁⟩
  · rcases hbc with h₂ | ⟨e₂, p₂⟩
    · exact Or.inl (lt_trans h₁ h₂)
    · exact Or.inl (by omega)
  · rcases hbc with h₂ | ⟨e₂, p₂⟩
    · exact Or.inl (by omega)
    · exact Or.inr ⟨e₁.trans e₂, comparePayload_trans a b c e₁ e₂ p₁ p₂⟩
termination_by (sizeOf a, 2)

theorem comparePayload_trans (a b c : KvpValue) (e₁ : a.tagIdx = b.tagIdx)
    (e₂ : b.tagIdx = c.tagIdx) (hab : comparePayload a b = .lt)
    (hbc : comparePayload b c = .lt) : comparePayload a c = .lt := by
  cases a <;> cases b <;> simp only [KvpValue.tagIdx] at e₁ <;>
    first
      | omega
      | skip
  all_goals
    cases c <;> simp only [KvpValue.tagIdx] at e₂ <;>
      first
        | omega
        | skip
  all_goals
    simp only [comparePayload, Ordering.then_eq_lt, cmpOf_lt_iff, cmpOf_eq_iff,
      keyListCmp_eq_iff] at hab hbc ⊢
  · omega
  · omega
  · omega
  · exact strCmp_trans hab hbc
  · exact strCmp_trans hab hbc
  · omega
  · exact listCmp_trans hab hbc
  · rename_i l₁ l₂ l₃
    exact compareValueList_trans l₁ l₂ l₃ hab hbc
  · rename_i f₁ f₂ f₃
    rcases hab with h | ⟨hk, hv⟩
    · rcases hbc with h' | ⟨hk', hv'⟩
      · exact Or.inl (keyListCmp_trans h h')
      · exact Or.inl (by rw [← hk']; exact h)
    · rcases hbc with h' | ⟨hk', hv'⟩
      · exact Or.inl (by rw [hk]; exact h')
      · exact Or.inr ⟨hk.trans hk', compareFrameValues_trans f₁ f₂ f₃ hv hv'⟩
termination_by (sizeOf a, 1)

theorem compareValueList_trans :
    ∀ (l₁ l₂ l₃ : KvpValueList), compareValueList l₁ l₂ = .lt →
      compareValueList l₂ l₃ = .lt → compareValueList l₁ l₃ = .lt
  | .nil, _, .cons _ _, _, _ => by simp [compareValueList]
  | .nil, l₂, .nil, h₁, h₂ => by cases l₂ <;> simp_all [compareValueList]
  | .cons _ _, l₂, .nil, h₁, h₂ => by cases l₂ <;> simp_all [compareValueList]
  | .cons v r, l₂, .cons w t, h₁, h₂ => by
    cases l₂ with
    | nil => simp_all [compareValueList]
    | cons u s =>
      simp only [compareValueList, Ordering.then_eq_lt] at h₁ h₂ ⊢
      rcases h₁ with h₁ | ⟨e₁, h₁⟩
      · rcases h₂ with h₂ | ⟨e₂, h₂⟩
        · exact Or.inl (compareValue_trans v u w h₁ h₂)
        · obtain rfl := (compareValue_eq_iff u w).1 e₂
          exact Or.inl h₁
      · obtain rfl := (compareValue_eq_iff v u).1 e₁
        rcases h₂ with h₂ | ⟨e₂, h₂⟩
        · exact Or.inl h₂
        · obtain rfl := (compareValue_eq_iff v w).1 e₂
          exact Or.inr ⟨(compareValue_eq_iff v v).2 rfl, compareValueList_trans r s t h₁ h₂⟩
termination_by l _ _ => (sizeOf l, 0)

theorem compareFrameValues_trans :
    ∀ (f₁ f₂ f₃ : KvpFrameImpl), compareFrameValues f₁ f₂ = .lt →
      compareFrameValues f₂ f₃ = .lt → compareFrameValues f₁ f₃ = .lt
  | .nil, _, .cons _ _ _, _, _ => by simp [compareFrameValues]
  | .nil, f₂, .nil, h₁, h₂ => by cases f₂ <;> simp_all [compareFrameValues]
  | .cons _ _ _, f₂, .nil, h₁, h₂ => by cases f₂ <;> simp_all [compareFrameValues]
  | .cons k v r, f₂, .cons k'' w t, h₁, h₂ => by
    cases f₂ with
    | nil => simp_all [compareFrameValues]
    | cons k' u s =>
      simp only [compareFrameValues, Ordering.then_eq_lt] at h₁ h₂ ⊢
      rcases h₁ with h₁ | ⟨e₁, h₁⟩
      · rcases h₂ with h₂ | ⟨e₂, h₂⟩
        · exact Or.inl (compareValue_trans v u w h₁ h₂)
        · obtain rfl := (compareValue_eq_iff u w).1 e₂
          exact Or.inl h₁
      · obtain rfl := (compareValue_eq_iff v u).1 e₁
        rcases h₂ with h₂ | ⟨e₂, h₂⟩
        · exact Or.inl h₂
        · obtain rfl := (compareValue_eq_iff v w).1 e₂
          exact Or.inr ⟨(compareValue_eq_iff v v).2 rfl, compareFrameValues_trans r s t h₁ h₂⟩
termination_by f _ _ => (sizeOf f, 0)
end

theorem compareFrame_trans {a b c : KvpFrameImpl} (hab : compareFrame a b = .lt)
    (hbc : compareFrame b c = .lt) : compareFrame a c = .lt := by
  rw [compareFrame, Ordering.then_eq_lt, keyListCmp_eq_iff] at hab hbc ⊢
  rcases hab with h₁ | ⟨e₁, p₁⟩
  · rcases hbc with h₂ | ⟨e₂, p₂⟩
    · exact Or.inl (keyListCmp_trans h₁ h₂)
    · exact Or.inl (by rw [← e₂]; exact h₁)
  · rcases hbc with h₂ | ⟨e₂, p₂⟩
    · exact Or.inl (by rw [e₁]; exact h₂)
    · exact Or.inr ⟨e₁.trans e₂, compareFrameValues_trans a b c p₁ p₂⟩

@[simp] theorem strCmp_refl (a : String) : strCmp a a = .eq :=
  strCmp_eq_iff.2 rfl

/-! ## Frame operations -/

/-- Modelled from the spec: `KvpFrameImpl::get_slot(const char *)`
(kvp_frame.hpp lines 133-137): the value for the key in the immediate
frame, or none if it does not exist; `std::map` lookup in `strcmp` key
order. -/
def KvpFrameImpl.get_slot : KvpFrameImpl → String → Option KvpValue
  | .nil, _ => none
  | .cons k' v' rest, k =>
    match strCmp k k' with
    | .lt => none
    | .eq => some v'
    | .gt => rest.get_slot k

/-- Modelled from the spec: `KvpFrameImpl::set(const char *, KvpValue*)`
(kvp_frame.hpp lines 78-85): insert or replace in the immediate frame only,
never failing; returns the previously held value (or none) paired with the
updated frame (`std::map` sorted insertion). -/
def KvpFrameImpl.set : KvpFrameImpl → String → KvpValue →
    Option KvpValue × KvpFrameImpl
  | .nil, k, v => (none, .cons k v .nil)
  | .cons k' v' rest, k, v =>
    match strCmp k k' with
    | .lt => (none, .cons k v (.cons k' v' rest))
    | .eq => (some v', .cons k' v rest)
    | .gt =>
      let p := rest.set k v
      (p.1, .cons k' v' p.2)

/-- Modelled from the spec: navigation through existing intermediate
Frames named by the given keys (spec section 4.1): follow each key in
turn; the walk yields none as soon as a key is absent or its entry is not
Frame-valued. -/
def KvpFrameImpl.walkFrames : KvpFrameImpl → List String → Option KvpFrameImpl
  | f, [] => some f
  | f, k :: rest =>
    match f.get_slot k with
    | some (.frame g) => g.walkFrames rest
    | _ => none

/-- Modelled from the spec: `KvpFrameImpl::get_slot(Path)`
(kvp_frame.hpp lines 138-142): pure lookup of the value at the tail of the
path, navigating only existing Frame-valued intermediates; none when any
segment is absent or the path runs through a non-Frame value; never
auto-creates; an empty path addresses nothing. -/
def KvpFrameImpl.get_slot_path : KvpFrameImpl → List String → Option KvpValue
  | _, [] => none
  | f, [k] => f.get_slot k
  | f, k :: rest =>
    match f.get_slot k with
    | some (.frame g) => g.get_slot_path rest
    | _ => none

/-- Modelled from the spec: the strict path overload
`KvpFrameImpl::set(Path, KvpValue*)` (kvp_frame.hpp lines 86-96): navigate
through already-existing intermediate Frames and set at the last key; if
any intermediate segment does not already exist as a Frame-valued entry,
the call fails with the documented invalid-argument condition — modelled
as `none` — producing no modified frame; this variant never auto-creates. -/
def KvpFrameImpl.setPathStrict : KvpFrameImpl → List String → KvpValue →
    Option (Option KvpValue × KvpFrameImpl)
  | _, [], _ => none
  | f, [k], v => some (f.set k v)
  | f, k :: rest, v =>
    match f.get_slot k with
    | some (.frame g) =>
      match g.setPathStrict rest v with
      | some p => some (p.1, (f.set k (.frame p.2)).2)
      | none => none
    | _ => none

/-- Modelled from the spec: `KvpFrameImpl::set_path`
(kvp_frame.hpp lines 97-120): like the strict path set, but auto-creates
missing intermediate Frames as empty Frames.  An intermediate entry that
exists but does not hold a Frame is replaced by a fresh empty Frame, as
required by the spec's unconditional path round-trip property
(spec section 8, "Path round trip"). -/
def KvpFrameImpl.set_path : KvpFrameImpl → List String → KvpValue →
    Option KvpValue × KvpFrameImpl
  | f, [], _ => (none, f)
  | f, [k], v => f.set k v
  | f, k :: rest, v =>
    let g : KvpFrameImpl :=
      match f.get_slot k with
      | some (.frame g) => g
      | _ => .nil
    let p := g.set_path rest v
    (p.1, (f.set k (.frame p.2)).2)

/-- Test for emptiness (`KvpFrameImpl::empty`, kvp_frame.hpp lines
149-152). -/
def KvpFrameImpl.empty : KvpFrameImpl → Bool
  | .nil => true
  | .cons _ _ _ => false

mutual
/-- Modelled from the spec: deep copy of a value; every nested Frame and
List is itself recursively copied (spec section 3, deep ownership). -/
def KvpValue.deepCopy : KvpValue → KvpValue
  | .int64 i => .int64 i
  | .double d => .double d
  | .numeric n d => .numeric n d
  | .string s => .string s
  | .guid g => .guid g
  | .timespec s n => .timespec s n
  | .blob b => .blob b
  | .list l => .list l.deepCopy
  | .frame f => .frame f.deepCopy

/-- Modelled from the spec: element-wise deep copy of a value list. -/
def KvpValueList.deepCopy : KvpValueList → KvpValueList
  | .nil => .nil
  | .cons v r => .cons v.deepCopy r.deepCopy

/-- Modelled from the spec: the deep-copy constructor
`KvpFrameImpl(const KvpFrameImpl &)` (kvp_frame.hpp lines 73-76): rebuilds
every slot, recursively copying nested Frames and Lists, sharing no
ownership with the source. -/
def KvpFrameImpl.deepCopy : KvpFrameImpl → KvpFrameImpl
  | .nil => .nil
  | .cons k v r => .cons k v.deepCopy r.deepCopy
end

mutual
theorem kvpValueDeepCopy_eq : ∀ v : KvpValue, v.deepCopy = v
  | .int64 _ => by simp [KvpValue.deepCopy]
  | .double _ => by simp [KvpValue.deepCopy]
  | .numeric _ _ => by simp [KvpValue.deepCopy]
  | .string _ => by simp [KvpValue.deepCopy]
  | .guid _ => by simp [KvpValue.deepCopy]
  | .timespec _ _ => by simp [KvpValue.deepCopy]
  | .blob _ => by simp [KvpValue.deepCopy]
  | .list l => by simp [KvpValue.deepCopy, kvpValueListDeepCopy_eq l]
  | .frame f => by simp [KvpValue.deepCopy, kvpFrameDeepCopy_eq f]

theorem kvpValueListDeepCopy_eq : ∀ l : KvpValueList, l.deepCopy = l
  | .nil => by simp [KvpValueList.deepCopy]
  | .cons v r => by
    simp [KvpValueList.deepCopy, kvpValueDeepCopy_eq v, kvpValueListDeepCopy_eq r]

theorem kvpFrameDeepCopy_eq : ∀ f : KvpFrameImpl, f.deepCopy = f
  | .nil => by simp [KvpFrameImpl.deepCopy]
  | .cons k v r => by
    simp [KvpFrameImpl.deepCopy, kvpValueDeepCopy_eq v, kvpFrameDeepCopy_eq r]
end

/-! ## Operation lemmas -/

theorem KvpFrameImpl.get_slot_set_same :
    ∀ (f : KvpFrameImpl) (k : String) (v : KvpValue),
      (f.set k v).2.get_slot k = some v
  | .nil, k, v => by simp [KvpFrameImpl.set, KvpFrameImpl.get_slot]
  | .cons k' v' rest, k, v => by
    simp only [KvpFrameImpl.set]
    cases h : strCmp k k' <;> simp only [KvpFrameImpl.get_slot, h, strCmp_refl]
    exact KvpFrameImpl.get_slot_set_same rest k v

theorem KvpFrameImpl.set_fst_eq_get_slot :
    ∀ (f : KvpFrameImpl) (k : String) (v : KvpValue),
      (f.set k v).1 = f.get_slot k
  | .nil, _, _ => rfl
  | .cons k' v' rest, k, v => by
    simp only [KvpFrameImpl.set, KvpFrameImpl.get_slot]
    cases h : strCmp k k' <;> simp only [h]
    exact KvpFrameImpl.set_fst_eq_get_slot rest k v

theorem KvpFrameImpl.get_slot_path_set_path :
    ∀ (p : List String) (f : KvpFrameImpl) (v : KvpValue), p ≠ [] →
      (f.set_path p v).2.get_slot_path p = some v
  | [], _, _, h => absurd rfl h
  | [k], f, v, _ => by
    simp only [KvpFrameImpl.set_path, KvpFrameImpl.get_slot_path]
    exact KvpFrameImpl.get_slot_set_same f k v
  | k :: k' :: rest, f, v, _ => by
    simp only [KvpFrameImpl.set_path, KvpFrameImpl.get_slot_path,
      KvpFrameImpl.get_slot_set_same]
    exact KvpFrameImpl.get_slot_path_set_path (k' :: rest) _ v (by simp)

theorem KvpFrameImpl.walkFrames_set_path_isSome :
    ∀ (p : List String) (f : KvpFrameImpl) (v : KvpValue),
      ((f.set_path p v).2.walkFrames p.dropLast).isSome = true
  | [], f, v => by simp [KvpFrameImpl.set_path, KvpFrameImpl.walkFrames]
  | [k], f, v => by simp [KvpFrameImpl.set_path, KvpFrameImpl.walkFrames]
  | k :: k' :: rest, f, v => by
    simp only [List.dropLast, KvpFrameImpl.set_path, KvpFrameImpl.walkFrames,
      KvpFrameImpl.get_slot_set_same]
    exact KvpFrameImpl.walkFrames_set_path_isSome (k' :: rest) _ v

theorem KvpFrameImpl.setPathStrict_none_of_walk_none :
    ∀ (p : List String) (f : KvpFrameImpl) (v : KvpValue),
      f.walkFrames p.dropLast = none → f.setPathStrict p v = none
  | [], f, v, h => by simp [KvpFrameImpl.walkFrames] at h
  | [k], f, v, h => by simp [KvpFrameImpl.walkFrames] at h
  | k :: k' :: rest, f, v, h => by
    simp only [List.dropLast, KvpFrameImpl.walkFrames] at h
    simp only [KvpFrameImpl.setPathStrict]
    cases hs : f.get_slot k with
    | none => rfl
    | some w =>
      cases w <;> simp only [hs] at h ⊢ <;> try rfl
      rename_i g
      rw [KvpFrameImpl.setPathStrict_none_of_walk_none (k' :: rest) g v h]

theorem KvpFrameImpl.get_slot_path_eq_walk :
    ∀ (p : List String) (f : KvpFrameImpl) (h : p ≠ []),
      f.get_slot_path p =
        (f.walkFrames p.dropLast).bind (fun g => g.get_slot (p.getLast h))
  | [], _, h => absurd rfl h
  | [k], f, _ => by
    simp [KvpFrameImpl.get_slot_path, KvpFrameImpl.walkFrames]
  | k :: k' :: rest, f, _ => by
    simp only [KvpFrameImpl.get_slot_path, List.dropLast, KvpFrameImpl.walkFrames,
      List.getLast_cons (List.cons_ne_nil k' rest)]
    cases hs : f.get_slot k with
    | none => rfl
    | some w =>
      cases w <;> try rfl
      rename_i g
      exact KvpFrameImpl.get_slot_path_eq_walk (k' :: rest) g (by simp)

/-! ## Claims about the Frame store -/

/-- Claim C1: for every Frame F, path P with at least one intermediate
segment, and value V, if some intermediate segment of P does not already
exist in F as a Frame-valued entry (the walk over P's intermediate
segments fails), then the strict variant `set(P, V)` fails with the
documented invalid-argument condition — modelled as `none`, producing no
modified frame, so F is left unchanged — whereas `set_path` with the
identical path succeeds (it is total) and afterwards all of P's
intermediate Frames exist. -/
theorem kvp_strict_set_vs_set_path (F : KvpFrameImpl) (P : List String)
    (V : KvpValue) (hlen : 2 ≤ P.length)
    (hmiss : F.walkFrames P.dropLast = none) :
    F.setPathStrict P V = none ∧
      ((F.set_path P V).2.walkFrames P.dropLast).isSome = true :=
  ⟨KvpFrameImpl.setPathStrict_none_of_walk_none P F V hmiss,
   KvpFrameImpl.walkFrames_set_path_isSome P F V⟩

theorem kvp_strict_set_vs_set_path_witness :
    KvpFrameImpl.nil.setPathStrict ["a", "b"] (.int64 7) = none ∧
      ((KvpFrameImpl.nil.set_path ["a", "b"] (.int64 7)).2.walkFrames
        (["a", "b"].dropLast)).isSome = true :=
  kvp_strict_set_vs_set_path .nil ["a", "b"] (.int64 7) (by decide) rfl

/-- Claim C2: for every Frame F, non-empty path P and value V, after
`set_path(P, V)` on F, `get_slot(P)` on the result returns the value V. -/
theorem kvp_set_path_get_slot_roundtrip (F : KvpFrameImpl) (P : List String)
    (V : KvpValue) (hne : P ≠ []) :
    (F.set_path P V).2.get_slot_path P = some V :=
  KvpFrameImpl.get_slot_path_set_path P F V hne

theorem kvp_set_path_get_slot_roundtrip_witness :
    (KvpFrameImpl.nil.set_path ["a", "b"] (.int64 5)).2.get_slot_path
      ["a", "b"] = some (.int64 5) :=
  kvp_set_path_get_slot_roundtrip .nil ["a", "b"] (.int64 5) (by decide)

/-- Claim C3: the single-key `set` inserts or replaces in the immediate
frame only and always succeeds (it is a total function of the model,
modelling `noexcept`): it returns exactly the value previously held at the
key, so `set(k, V1)` followed by `set(k, V2)` returns `V1` from the second
call, and `set` at a previously absent key returns none. -/
theorem kvp_set_immediate (F : KvpFrameImpl) (k : String) (V V₁ V₂ : KvpValue) :
    (F.set k V).1 = F.get_slot k ∧
      ((F.set k V₁).2.set k V₂).1 = some V₁ ∧
      (F.get_slot k = none → (F.set k V).1 = none) := by
  refine ⟨KvpFrameImpl.set_fst_eq_get_slot F k V, ?_, ?_⟩
  · rw [KvpFrameImpl.set_fst_eq_get_slot, KvpFrameImpl.get_slot_set_same]
  · intro h
    rw [KvpFrameImpl.set_fst_eq_get_slot, h]

theorem kvp_set_immediate_witness :
    ((KvpFrameImpl.nil.set "k" (.int64 1)).2.set "k" (.int64 2)).1 =
        some (.int64 1) ∧
      (KvpFrameImpl.nil.set "k" (.int64 1)).1 = none :=
  ⟨(kvp_set_immediate .nil "k" (.int64 1) (.int64 1) (.int64 2)).2.1,
   (kvp_set_immediate .nil "k" (.int64 1) (.int64 1) (.int64 2)).2.2 rfl⟩

/-- Claim C4: `compare` over Frames satisfies the standard total-order
laws — antisymmetry (`compare(A,B) = less` iff `compare(B,A) = greater`,
and `compare(A,B) = equal` iff `compare(B,A) = equal`) and transitivity —
and it is computed by comparing the sorted key sequences lexicographically
and then, for equal key sequences, the values key-by-key in sorted-key
order with the tag-aware comparator, short-circuiting on the first
difference; any two empty Frames compare equal. -/
theorem kvp_compare_total_order :
    (∀ A B : KvpFrameImpl, compareFrame A B = .lt ↔ compareFrame B A = .gt) ∧
    (∀ A B : KvpFrameImpl, compareFrame A B = .eq ↔ compareFrame B A = .eq) ∧
    (∀ A B C : KvpFrameImpl, compareFrame A B = .lt → compareFrame B C = .lt →
      compareFrame A C = .lt) ∧
    (∀ A B : KvpFrameImpl, compareFrame A B =
      (keyListCmp A.keys B.keys).then (compareFrameValues A B)) ∧
    (∀ A B : KvpFrameImpl, A.empty = true → B.empty = true →
      compareFrame A B = .eq) := by
  refine ⟨?_, ?_, ?_, ?_, ?_⟩
  · intro A B
    rw [← compareFrame_swap A B]
    cases hAB : compareFrame A B <;> simp [Ordering.swap]
  · intro A B
    rw [← compareFrame_swap A B]
    cases hAB : compareFrame A B <;> simp [Ordering.swap]
  · intro A B C
    exact compareFrame_trans
  · intro A B
    rfl
  · intro A B hA hB
    cases A <;> cases B <;> simp_all [KvpFrameImpl.empty]
    exact (compareFrame_eq_iff _ _).2 rfl

theorem kvp_compare_total_order_witness :
    compareFrame (.cons "a" (.int64 1) .nil) (.cons "a" (.int64 3) .nil) = .lt ∧
      compareFrame .nil .nil = .eq := by
  constructor
  · refine kvp_compare_total_order.2.2.1 _ (.cons "a" (.int64 2) .nil) _ ?_ ?_ <;>
      simp [compareFrame, keyListCmp, compareFrameValues, compareValue,
        comparePayload, KvpValue.tagIdx, KvpFrameImpl.keys, cmpOf, Ordering.then]
  · exact kvp_compare_total_order.2.2.2.2 .nil .nil rfl rfl

/-- Claim C5: the deep-copy constructor is a total function of the model
(so it terminates on every finite Frame) and produces a Frame that
compares equal to the source; in the value-semantics embedding the copy is
rebuilt recursively from every nested Frame and List — it shares nothing
with the source, so no operation on the copy can affect the source. -/
theorem kvp_deep_copy (F : KvpFrameImpl) :
    compareFrame F F.deepCopy = .eq ∧ F.deepCopy = F := by
  have h := kvpFrameDeepCopy_eq F
  exact ⟨by rw [h]; exact (compareFrame_eq_iff F F).2 rfl, h⟩

/-- Claim C6: `get_slot(path)` is a pure lookup — a function of the model
returning an optional value and constructing no frame, so it never mutates
nor auto-creates — and for every non-empty path it equals the lookup of
the path's last key in the frame reached by walking the intermediate
Frame-valued entries; consequently it returns none whenever the walk fails,
that is, when any intermediate segment is absent or holds a non-Frame
value, and none when the final key is absent. -/
theorem kvp_get_slot_path_pure (F : KvpFrameImpl) (P : List String)
    (h : P ≠ []) :
    F.get_slot_path P =
      (F.walkFrames P.dropLast).bind (fun g => g.get_slot (P.getLast h)) ∧
    (F.walkFrames P.dropLast = none → F.get_slot_path P = none) := by
  refine ⟨KvpFrameImpl.get_slot_path_eq_walk P F h, ?_⟩
  intro hw
  rw [KvpFrameImpl.get_slot_path_eq_walk P F h, hw]
  rfl

theorem kvp_get_slot_path_pure_witness :
    (KvpFrameImpl.cons "a" (.int64 1) .nil).get_slot_path ["a", "b"] = none :=
  (kvp_get_slot_path_pure (KvpFrameImpl.cons "a" (.int64 1) .nil) ["a", "b"]
    (by decide)).2
    (by simp [KvpFrameImpl.walkFrames, KvpFrameImpl.get_slot])

/-! ## Backend session contract (qofbackend-p.h)

Only the header is in the repository; `qofbackend.c` and the session
machinery are not, so the operations below are modelled from the spec and
the header contract comments. -/

/-- Modelled from the spec: the closed enumeration of backend error kinds
(spec section 6, "Error code space": lock-held, not-found,
modify-after-destroy, I/O failure, etc.), with `ERR_BACKEND_NO_ERR` the
distinguished no-error value; `qofbackend.h` is not in the repository
excerpt. -/
inductive QofBackendError : Type where
  | ERR_BACKEND_NO_ERR
  | ERR_BACKEND_LOCKED
  | ERR_BACKEND_NO_SUCH_DB
  | ERR_BACKEND_MOD_DESTROY
  | ERR_BACKEND_IO_ERR
  | ERR_BACKEND_MISC
  deriving DecidableEq

/-- Modelled from the spec: the per-connection backend state relevant to
the claims (struct QofBackend_s, qofbackend-p.h lines 287-351): the
one-deep error stack (`last_err` line 322, `error_msg` line 323), the
string-named counters backing the `counter` operation (line 310), and the
resolved location (`fullpath`, lines 327-330). -/
structure QofBackend : Type where
  last_err : QofBackendError
  error_msg : Option String
  counters : String → Int
  fullpath : Option String

/-- Modelled from the spec: a freshly initialized backend
(`qof_backend_init`): no pending error, no message, every named counter at
zero. -/
def QofBackend.init : QofBackend :=
  { last_err := .ERR_BACKEND_NO_ERR, error_msg := none,
    counters := fun _ => 0, fullpath := none }

/-- Modelled from the spec: `qof_backend_set_error` (qofbackend-p.h lines
362-365) pushes an error code onto the one-deep error stack: the stored
code is overwritten unconditionally, so only the most recent push
survives. -/
def qof_backend_set_error (be : QofBackend) (err : QofBackendError) :
    QofBackend :=
  { be with last_err := err }

/-- Modelled from the spec: `qof_backend_set_message` (qofbackend-p.h
lines 371-373) assigns the formatted message, replacing any previous
one. -/
def qof_backend_set_message (be : QofBackend) (msg : String) : QofBackend :=
  { be with error_msg := some msg }

/-- Modelled from the spec: `qof_backend_get_error` (qofbackend-p.h lines
367-369) pops the error code off the one-deep stack: it returns the stored
code and clears the stack back to `ERR_BACKEND_NO_ERR`. -/
def qof_backend_get_error (be : QofBackend) : QofBackendError × QofBackend :=
  (be.last_err, { be with last_err := .ERR_BACKEND_NO_ERR })

/-- Modelled from the spec: `qof_backend_get_message` (qofbackend-p.h
lines 375-378) pops the error message from the backend. -/
def qof_backend_get_message (be : QofBackend) : Option String × QofBackend :=
  (be.error_msg, { be with error_msg := none })

/-- Modelled from the spec: a fallible operation that fails pushes exactly
one (code, message) pair onto the one-deep error stack (spec section 4.2,
"Error reporting"). -/
def qof_backend_push_pair (be : QofBackend) (err : QofBackendError)
    (msg : String) : QofBackend :=
  qof_backend_set_message (qof_backend_set_error be err) msg

/-- Modelled from the spec: the `counter` operation (contract comment,
qofbackend-p.h lines 165-166, and member line 310): increments the named
counter scoped to this backend and returns the post-incremented value;
the sentinel failure value -1 is returned only on error, and this model —
a backend without injected failures — never produces it. -/
def qof_backend_counter (be : QofBackend) (name : String) :
    Int × QofBackend :=
  let v := be.counters name + 1
  (v, { be with counters := fun n => if n = name then v else be.counters n })

/-- Claim C7: the backend error stack is exactly one deep: pushing a
(code, message) pair while one is pending silently overwrites the earlier
pair, so only the most recent error is observable; `get_error` pops the
stored code, so an immediately following `get_error` reports no error; a
failing operation pushes exactly one pair, which one
`get_error`/`get_message` round pops in full. -/
theorem backend_error_stack_one_deep (be : QofBackend)
    (e₁ e₂ : QofBackendError) (m₁ m₂ : String) :
    (qof_backend_get_error
        (qof_backend_push_pair (qof_backend_push_pair be e₁ m₁) e₂ m₂)).1 = e₂ ∧
    (qof_backend_get_message
        (qof_backend_push_pair (qof_backend_push_pair be e₁ m₁) e₂ m₂)).1 =
      some m₂ ∧
    (qof_backend_get_error (qof_backend_get_error be).2).1 =
      .ERR_BACKEND_NO_ERR ∧
    (qof_backend_get_error (qof_backend_push_pair be e₁ m₁)).1 = e₁ :=
  ⟨rfl, rfl, rfl, rfl⟩

/-- Claim C8: `counter(name)` returns the post-incremented value of the
named counter, so on a backend whose counter has not been driven negative
(in particular any fresh backend), successive calls with the same name
yield a strictly increasing sequence that never contains the failure
sentinel -1. -/
theorem backend_counter_monotonic (be : QofBackend) (name : String)
    (h : 0 ≤ be.counters name) :
    ((qof_backend_counter be name).1 <
        (qof_backend_counter (qof_backend_counter be name).2 name).1) ∧
    ((qof_backend_counter (qof_backend_counter be name).2 name).1 <
        (qof_backend_counter
          (qof_backend_counter (qof_backend_counter be name).2 name).2 name).1) ∧
    (qof_backend_counter be name).1 ≠ -1 ∧
    (qof_backend_counter (qof_backend_counter be name).2 name).1 ≠ -1 ∧
    (qof_backend_counter
        (qof_backend_counter (qof_backend_counter be name).2 name).2 name).1 ≠ -1 ∧
    (qof_backend_counter be name).1 = be.counters name + 1 := by
  simp [qof_backend_counter]
  omega

theorem backend_counter_monotonic_witness :
    ((qof_backend_counter QofBackend.init "txn-seq").1 <
        (qof_backend_counter
          (qof_backend_counter QofBackend.init "txn-seq").2 "txn-seq").1) ∧
    (qof_backend_counter QofBackend.init "txn-seq").1 ≠ -1 :=
  ⟨(backend_counter_monotonic QofBackend.init "txn-seq" (by simp [QofBackend.init])).1,
   (backend_counter_monotonic QofBackend.init "txn-seq" (by simp [QofBackend.init])).2.2.1⟩

/-! ## Provider registry (qofbackend-p.h lines 246-285, 353-360) -/

/-- Modelled from the spec: a backend provider descriptor
(struct QofBackendProvider_s, qofbackend-p.h lines 246-285): the provider
name, the access-method scheme it serves (without `://`), whether it can
handle books with external references (the source's boolean flag at lines
256-262), and the recognizer predicate `check_data_type` (lines 267-281).
The factory and teardown hooks play no role in resolution and are
omitted. -/
structure QofBackendProvider : Type where
  provider_name : String
  access_method : String
  handles_external_refs : Bool
  check_data_type : String → Bool

/-- Modelled from the spec: `qof_backend_register_provider`
(qofbackend-p.h lines 353-360) appends the descriptor to the process-wide
registry; no deduplication, registration order preserved. -/
def qof_backend_register_provider (registry : List QofBackendProvider)
    (p : QofBackendProvider) : List QofBackendProvider :=
  registry ++ [p]

/-- Modelled from the spec: the scheme of a location string — the part
before the first colon; access methods are registered without `://`
(spec section 6, "Access-method string"). -/
def locationScheme (location : String) : String :=
  String.mk (location.data.takeWhile (fun c => c ≠ ':'))

/-- Modelled from the spec: provider resolution for a location (spec
section 4.3): filter the registered descriptors to those whose access
method equals the location's scheme, then select the first — the
earliest-registered — whose recognizer predicate accepts the location;
unresolved (none) if no filtered provider recognizes it. -/
def resolveProvider (registry : List QofBackendProvider) (location : String) :
    Option QofBackendProvider :=
  (registry.filter (fun p => p.access_method = locationScheme location)).find?
    (fun p => p.check_data_type location)

theorem find?_eq_some_earliest {α : Type} (p : α → Bool) :
    ∀ {l : List α} {a : α}, l.find? p = some a →
      p a = true ∧ ∃ l₁ l₂, l = l₁ ++ a :: l₂ ∧ ∀ b ∈ l₁, p b = false
  | [], a, h => by simp [List.find?] at h
  | x :: xs, a, h => by
    rcases hx : p x with _ | _
    · rw [List.find?_cons_of_neg _ (by simp [hx])] at h
      obtain ⟨hpa, l₁, l₂, rfl, hl₁⟩ := find?_eq_some_earliest p h
      refine ⟨hpa, x :: l₁, l₂, rfl, ?_⟩
      intro b hb
      rcases List.mem_cons.mp hb with rfl | hb
      · exact hx
      · exact hl₁ b hb
    · rw [List.find?_cons_of_pos _ hx] at h
      obtain rfl := Option.some.inj h
      exact ⟨hx, [], xs, rfl, by simp⟩

/-- Claim C9: provider resolution filters the registered descriptors by
access method and then selects the earliest-registered one whose
recognizer accepts the location: whenever resolution succeeds the chosen
provider serves the location's scheme, recognizes the location, and every
provider filtered in ahead of it does not; in particular, for two
providers under the same access method with disjoint recognizers, a
location recognized by exactly one resolves to that one in either
registration order, and a location recognized by neither is reported
unresolved. -/
theorem provider_resolution (p₁ p₂ : QofBackendProvider) (loc : String)
    (hs₁ : p₁.access_method = locationScheme loc)
    (hs₂ : p₂.access_method = locationScheme loc) :
    (∀ (registry : List QofBackendProvider) (p : QofBackendProvider),
      resolveProvider registry loc = some p →
        p.access_method = locationScheme loc ∧ p.check_data_type loc = true ∧
        ∃ l₁ l₂,
          registry.filter (fun q => q.access_method = locationScheme loc) =
            l₁ ++ p :: l₂ ∧
          ∀ q ∈ l₁, q.check_data_type loc = false) ∧
    (p₁.check_data_type loc = true → p₂.check_data_type loc = false →
      resolveProvider [p₁, p₂] loc = some p₁ ∧
        resolveProvider [p₂, p₁] loc = some p₁) ∧
    (p₁.check_data_type loc = false → p₂.check_data_type loc = false →
      resolveProvider [p₁, p₂] loc = none) := by
  refine ⟨?_, ?_, ?_⟩
  · intro registry p h
    obtain ⟨hp, l₁, l₂, hsplit, hl₁⟩ := find?_eq_some_earliest _ h
    have hmem : p ∈ registry.filter
        (fun q => q.access_method = locationScheme loc) := by
      rw [hsplit]
      simp
    have := List.of_mem_filter hmem
    exact ⟨by simpa using this, hp, l₁, l₂, hsplit, hl₁⟩
  · intro h₁ h₂
    constructor <;>
      simp [resolveProvider, List.filter, List.find?, hs₁, hs₂, h₁, h₂]
  · intro h₁ h₂
    simp [resolveProvider, List.filter, List.find?, hs₁, hs₂, h₁, h₂]

theorem provider_resolution_witness :
    resolveProvider
      [⟨"xml", "file", false, fun l => l = "file:new.xml"⟩,
       ⟨"bin", "file", false, fun l => l = "file:new.bin"⟩]
      "file:new.xml" =
      some ⟨"xml", "file", false, fun l => l = "file:new.xml"⟩ :=
  ((provider_resolution
      ⟨"xml", "file", false, fun l => l = "file:new.xml"⟩
      ⟨"bin", "file", false, fun l => l = "file:new.bin"⟩
      "file:new.xml" (by decide) (by decide)).2.1
    (by simp) (by simp)).1

/-! ## Budget consumer (gnc-budget.c) -/

/-- A fixed-point numeric value (`gnc_numeric`): numerator and
denominator. -/
structure GncNumeric : Type where
  num : Int
  den : Int
  deriving DecidableEq

/-- `gnc_numeric_zero()`: numerator 0, denominator 1. -/
def gnc_numeric_zero : GncNumeric := ⟨0, 1⟩

/-- An account as seen by gnc-budget.c: only its GUID's string rendering
matters (`guid_to_string_buff(xaccAccountGetGUID(account), path)`,
gnc-budget.c line 269). -/
structure Account : Type where
  guidString : String

/-- The budget state of gnc-budget.c (struct gnc_budget_private, lines
39-46, plus the entity's KVP slots reached through
`qof_instance_get_slots`). -/
structure GncBudget : Type where
  name : String
  description : String
  num_periods : Nat
  slots : KvpFrameImpl

/-- The slot path `"<account guid>/<period_num>"` built by
gnc-budget.c lines 213-214 and 269-270, as its two `/`-separated
segments. -/
def budgetPeriodPath (account : Account) (period_num : Nat) : List String :=
  [account.guidString, toString period_num]

/-- Modelled from the spec: `kvp_frame_set_numeric(frame, path, val)` (the
C KVP API used by gnc-budget.c line 216; its implementation is not in the
repository excerpt): store a Numeric value at the `/`-delimited path,
auto-creating intermediate frames like `set_path`. -/
def kvp_frame_set_numeric (frame : KvpFrameImpl) (path : List String)
    (val : GncNumeric) : KvpFrameImpl :=
  (frame.set_path path (.numeric val.num val.den)).2

/-- Modelled from the spec: `kvp_frame_get_numeric(frame, path)` — "Zero
if unset" (gnc-budget.c line 271; the implementation is not in the
repository excerpt): the Numeric value stored at the path, or numeric zero
when the path is absent or holds a non-Numeric value. -/
def kvp_frame_get_numeric (frame : KvpFrameImpl) (path : List String) :
    GncNumeric :=
  match frame.get_slot_path path with
  | some (.numeric n d) => ⟨n, d⟩
  | _ => gnc_numeric_zero

/-- Embedded from gnc-budget.c lines 200-219
(`gnc_budget_set_account_period_value`): writes the value into the
budget's slots under the path `"<account guid>/<period_num>"`. -/
def gnc_budget_set_account_period_value (budget : GncBudget)
    (account : Account) (period_num : Nat) (val : GncNumeric) : GncBudget :=
  { budget with
      slots :=
        kvp_frame_set_numeric budget.slots
          (budgetPeriodPath account period_num) val }

/-- Embedded from gnc-budget.c lines 254-273
(`gnc_budget_get_account_period_value`): `numeric` starts as
`gnc_numeric_zero()`; `g_return_val_if_fail(GNC_IS_BUDGET(budget), numeric)`
and `g_return_val_if_fail(account, numeric)` return that zero when the
argument is not a budget or the account is null — modelled by the `Option`
arguments being none — and otherwise the value is read from the budget's
slots at `"<account guid>/<period_num>"`, zero if unset. -/
def gnc_budget_get_account_period_value (budget : Option GncBudget)
    (account : Option Account) (period_num : Nat) : GncNumeric :=
  match budget, account with
  | some b, some a => kvp_frame_get_numeric b.slots (budgetPeriodPath a period_num)
  | _, _ => gnc_numeric_zero

/-- Claim C10 (implicit): `gnc_budget_get_account_period_value` returns
numeric zero when a precondition fails (the budget argument is not a
budget, or the account is null) and when nothing is stored at the
(account, period) slot; and a stored zero also reads back as the same
zero, so callers cannot distinguish an unset slot, an argument error, and
a stored zero through this getter. -/
theorem budget_get_period_value_zero (b : GncBudget) (a : Account) (n : Nat)
    (bud : Option GncBudget) (acc : Option Account) :
    (bud = none ∨ acc = none →
      gnc_budget_get_account_period_value bud acc n = gnc_numeric_zero) ∧
    (b.slots.get_slot_path (budgetPeriodPath a n) = none →
      gnc_budget_get_account_period_value (some b) (some a) n =
        gnc_numeric_zero) ∧
    gnc_budget_get_account_period_value
        (some (gnc_budget_set_account_period_value b a n gnc_numeric_zero))
        (some a) n = gnc_numeric_zero := by
  refine ⟨?_, ?_, ?_⟩
  · rintro (rfl | rfl)
    · rcases acc with _ | a' <;> rfl
    · rcases bud with _ | b' <;> rfl
  · intro h
    simp [gnc_budget_get_account_period_value, kvp_frame_get_numeric, h]
  · simp only [gnc_budget_get_account_period_value,
      gnc_budget_set_account_period_value, kvp_frame_get_numeric,
      kvp_frame_set_numeric]
    rw [KvpFrameImpl.get_slot_path_set_path _ _ _ (by simp [budgetPeriodPath])]

theorem budget_get_period_value_zero_witness :
    gnc_budget_get_account_period_value none (some ⟨"g0"⟩) 0 =
        gnc_numeric_zero ∧
      gnc_budget_get_account_period_value
          (some ⟨"Unnamed Budget", "", 12, .nil⟩) (some ⟨"g0"⟩) 0 =
        gnc_numeric_zero :=
  ⟨(budget_get_period_value_zero ⟨"Unnamed Budget", "", 12, .nil⟩ ⟨"g0"⟩ 0
      none (some ⟨"g0"⟩)).1 (Or.inl rfl),
   (budget_get_period_value_zero ⟨"Unnamed Budget", "", 12, .nil⟩ ⟨"g0"⟩ 0
      none (some ⟨"g0"⟩)).2.1 rfl⟩
